import Mathlib

/-!
Verification of the Task Management System backend (Express + Mongoose).

The definitions below are a shallow embedding of the backend source:
the Mongoose `TaskSchema` and `UserSchema`, the `PUT /:id/share` and
`GET /shared` handlers from `routes/tasks.js`, the `authMiddleware`
from `middleware/auth.js`, the two aggregation endpoints from
`routes/analytics.js`, and the Socket.IO notification path
(`io.emit` on the server, `listenForNotifications` on the client).

MongoDB ObjectId values travel as hex strings through the JSON API, so
user and task identifiers are modelled as `String`. Timestamps are
modelled as `Nat` milliseconds since the epoch.
-/

namespace TaskMgmt

/-- A user record, from `models/User.js` (`UserSchema`): unique username
and a hashed password, plus the document identifier. -/
structure User where
  id : String
  username : String
  password : String
deriving Repr, DecidableEq

/-- The closed status enumeration of `TaskSchema`:
`enum: [Pending, In Progress, Completed]`. -/
def statusEnum : List String := ["Pending", "In Progress", "Completed"]

/-- A task record, from `models/Task.js` (`TaskSchema`): title, optional
description, status string (validated against `statusEnum`, default
`Pending`), optional due date, one owner, a `sharedWith` array of user
identifiers, attachments, and the `createdAt` timestamp added by
`timestamps: true`. -/
structure Task where
  id : String
  title : String
  description : String
  status : String
  dueDate : Option Nat
  owner : String
  sharedWith : List String
  attachments : List (String × String)
  createdAt : Nat
deriving Repr, DecidableEq

/-- `Task.findById`: the store resolves an identifier to the document
carrying it, if any. -/
def findById (store : List Task) (id : String) : Option Task :=
  store.find? (fun t => t.id == id)

/-- `task.save()`: writes the mutated document back; every stored
document with the same identifier is replaced by the new version. -/
def saveTask (store : List Task) (t : Task) : List Task :=
  store.map (fun x => if x.id == t.id then t else x)

/-- The Socket.IO event name used by the share handler: `io.emit` on
the concatenation of the literal `notify:` and `userIdToShare`. -/
def notifyTopic (uid : String) : String := "notify:" ++ uid

/-- The notification payload message built by the share handler. -/
def shareMessage (title : String) : String :=
  "A task titled \"" ++ title ++ "\" was shared with you."

/-- One emitted Socket.IO event: an event name and the `message` field
of its payload. -/
structure Emission where
  topic : String
  message : String
deriving Repr, DecidableEq

/-- The observable outcome of one `PUT /:id/share` request: the store
after the request, the HTTP status sent, the JSON task body when the
handler responds with the task, and the events emitted. -/
structure ShareOutcome where
  store : List Task
  status : Nat
  body : Option Task
  events : List Emission
deriving Repr, DecidableEq

/-- The `PUT /:id/share` handler from `routes/tasks.js`.

Control flow of the source, in order: `Task.findById(id)` — when the
identifier does not resolve this yields `null` and the subsequent
`task.owner` access throws, landing in the catch block, which answers
500 `Error sharing task`; an owner check answering 403 `Forbidden`;
an `includes` membership test on `sharedWith` guarding a push, a save
and one `io.emit`; finally `res.json(task)` with status 200. The
`emitOk` flag models whether the `io.emit` call throws — when it does,
the catch block answers 500, after the save has already persisted. -/
def shareTask (store : List Task) (reqUser id userIdToShare : String)
    (emitOk : Bool) : ShareOutcome :=
  match findById store id with
  | none => ⟨store, 500, none, []⟩
  | some task =>
    if task.owner == reqUser then
      if task.sharedWith.contains userIdToShare then
        ⟨store, 200, some task, []⟩
      else
        let task2 := { task with sharedWith := task.sharedWith ++ [userIdToShare] }
        let store2 := saveTask store task2
        if emitOk then
          ⟨store2, 200, some task2,
            [⟨notifyTopic userIdToShare, shareMessage task2.title⟩]⟩
        else
          ⟨store2, 500, none, []⟩
    else
      ⟨store, 403, none, []⟩

/-- A connected Socket.IO client, identified by the list of event names
it has registered listeners for (`socket.on`). -/
structure Client where
  topics : List String
deriving Repr, DecidableEq

/-- `listenForNotifications(userId, callback)` from the client side:
registers a listener for the event name `notify:` + userId. -/
def subscribeNotifications (c : Client) (uid : String) : Client :=
  { c with topics := c.topics ++ [notifyTopic uid] }

/-- How many times the callbacks of client `c` fire for one emitted
event: `io.emit` reaches every connected socket, and each listener the
client registered for that exact event name fires once. Nothing is
stored: a socket with no matching listener at emit time drops the
event. -/
def receivedCount (c : Client) (e : Emission) : Nat :=
  c.topics.count e.topic

/-- Total number of callback firings at client `c` for a list of
emitted events. -/
def deliveredTo (c : Client) (es : List Emission) : Nat :=
  (es.map (fun e => receivedCount c e)).sum

/-- The `GET /shared` handler from `routes/tasks.js`:
`Task.find(sharedWith: req.user._id)`. -/
def sharedTasks (store : List Task) (uid : String) : List Task :=
  store.filter (fun t => t.sharedWith.contains uid)

/-- The `GET /overview` aggregation from `routes/analytics.js`:
`$match` on the owner, then `$group` by `$status` with `count: $sum 1`.
`$group` emits one document per distinct status value occurring among
the matched tasks, so statuses with zero tasks never appear. -/
def overview (store : List Task) (uid : String) : List (String × Nat) :=
  let mine := store.filter (fun t => t.owner == uid)
  ((mine.map Task.status).dedup).map
    (fun s => (s, mine.countP (fun t => t.status == s)))

/-- Milliseconds per day, the unit of the 7-day trends window. -/
def msPerDay : Nat := 86400000

/-- The `$dateToString` format `%Y-%m-%d` maps a timestamp to its UTC
calendar day; days are modelled by their epoch-day number, whose usual
order on `Nat` coincides with the lexicographic order of the
`%Y-%m-%d` strings. -/
def dayKey (ts : Nat) : Nat := ts / msPerDay

/-- The `GET /trends` aggregation from `routes/analytics.js`:
`sevenDaysAgo` is the query time minus seven days; the pipeline is
`$match` on owner and `createdAt: $gte sevenDaysAgo`, `$group` by the
calendar day of `createdAt` with `created: $sum 1`, then `$sort` by
the day key ascending. -/
def trends (store : List Task) (uid : String) (now : Nat) : List (Nat × Nat) :=
  let sevenDaysAgo := now - 7 * msPerDay
  let mine := store.filter
    (fun t => t.owner == uid && decide (sevenDaysAgo ≤ t.createdAt))
  let days := (mine.map (fun t => dayKey t.createdAt)).dedup
  days.mergeSort.map
    (fun d => (d, mine.countP (fun t => dayKey t.createdAt == d)))

/-- Result of `authMiddleware` from `middleware/auth.js`: either a 401
response (the guarded handler never runs), or `next()` is called with
the resolved user attached to the request. -/
inductive AuthResult where
  | unauthorized
  | proceed (user : User)
deriving Repr, DecidableEq

/-- The JavaScript `String.prototype.split(' ')` on the character
list: every single space character separates two (possibly empty)
fragments, and the split of the empty string is one empty fragment. -/
def splitSpaces : List Char → List (List Char)
  | [] => [[]]
  | c :: cs =>
    let rest := splitSpaces cs
    if c = ' ' then [] :: rest
    else
      match rest with
      | [] => [[c]]
      | w :: ws => (c :: w) :: ws

/-- Token extraction from `middleware/auth.js`:
`req.headers.authorization?.split(' ')[1]` followed by the falsy test
`if (!token)`, which also rejects an empty token string. -/
def bearerToken (authHeader : Option String) : Option String :=
  match authHeader.bind
      (fun h => ((splitSpaces h.data).map String.mk).get? 1) with
  | none => none
  | some t => if t = "" then none else some t

/-- `User.findById`: resolves a decoded identifier in the user store. -/
def findUser (users : List User) (uid : String) : Option User :=
  users.find? (fun u => u.id == uid)

/-- The `authMiddleware` from `middleware/auth.js`. The `verify`
parameter stands for `jwt.verify(token, secret)`, yielding the decoded
user identifier or failing; a failed verification, a missing token and
an unresolved identifier (`if (!req.user) throw`) all land in the 401
branch. -/
def authMiddleware (verify : String → Option String) (users : List User)
    (authHeader : Option String) : AuthResult :=
  match bearerToken authHeader with
  | none => .unauthorized
  | some tok =>
    match verify tok with
    | none => .unauthorized
    | some uid =>
      match findUser users uid with
      | none => .unauthorized
      | some u => .proceed u

/-- Status validation performed by `TaskSchema` on a write: an absent
status falls back to the schema default `Pending`; a present status
must belong to `statusEnum`, otherwise validation fails. -/
def schemaStatus (status? : Option String) : Option String :=
  match status? with
  | none => some "Pending"
  | some s => if statusEnum.contains s then some s else none

/-- Modelled from the spec: the `POST /api/tasks` create handler is not
among the provided sources (only `TaskSchema`, the frontend caller and
the README document it). Per the spec, creation stores a new document
whose owner is the requesting user (exactly one owner, set at
creation), with an empty shared-with set, status validated by the
schema enumeration and defaulting to `Pending` when unspecified; a
validation failure leaves the store unchanged. -/
def createTask (store : List Task) (reqUser newId title descr : String)
    (status? : Option String) (dueDate : Option Nat) (now : Nat) :
    List Task × Bool :=
  match schemaStatus status? with
  | none => (store, false)
  | some s =>
    (store ++ [{ id := newId, title := title, description := descr,
                 status := s, dueDate := dueDate, owner := reqUser,
                 sharedWith := [], attachments := [], createdAt := now }],
     true)

/-- Modelled from the spec: the `PUT /api/tasks/:id` update handler is
not among the provided sources. Per the spec and the frontend
`TaskForm` caller, an update rewrites title, description, status and
due date of the resolved document; the owner is immutable and the
status is validated against the schema enumeration. -/
def updateTask (store : List Task) (id title descr status : String)
    (dueDate : Option Nat) : List Task × Bool :=
  match findById store id with
  | none => (store, false)
  | some t =>
    if statusEnum.contains status then
      (saveTask store { t with title := title, description := descr,
                               status := status, dueDate := dueDate },
       true)
    else
      (store, false)

/-- Modelled from the spec: the `DELETE /api/tasks/:id` handler is not
among the provided sources. Per the spec it removes the resolved
document from the store. -/
def deleteTask (store : List Task) (id : String) : List Task :=
  store.filter (fun t => t.id != id)

/-- A stored task respects the schema enumeration on its status path. -/
def statusOk (t : Task) : Bool := statusEnum.contains t.status

/-- Store invariant: every stored task has a status drawn from the
fixed enumeration. -/
def storeInv (store : List Task) : Prop := ∀ t ∈ store, statusOk t = true

/-- A concrete store used to instantiate the theorems below. -/
def demoTask : Task :=
  { id := "t1", title := "Demo", description := "", status := "Pending",
    dueDate := none, owner := "u1", sharedWith := [], attachments := [],
    createdAt := 86400000 }

/-- A one-task concrete store. -/
def demoStore : List Task := [demoTask]

theorem findById_id_eq {store : List Task} {i : String} {t : Task}
    (h : findById store i = some t) : t.id = i := by
  have h2 := List.find?_some h
  simpa using h2

theorem findById_mem {store : List Task} {i : String} {t : Task}
    (h : findById store i = some t) : t ∈ store :=
  List.mem_of_find?_eq_some h

theorem findById_saveTask {i : String} (t t' : Task)
    (hid : t'.id = t.id) :
    ∀ store : List Task, findById store i = some t →
      findById (saveTask store t') i = some t' := by
  intro store
  induction store with
  | nil => intro h; simp [findById] at h
  | cons a as ih =>
    intro h
    have hti : t.id = i := findById_id_eq h
    by_cases ha : a.id = i
    · have hpos : (a.id == i) = true := by simpa using ha
      have hta : a = t := by
        simp [findById, List.find?, hpos] at h
        exact h
      have hhead : (a.id == t'.id) = true := by
        rw [hid, ← hta]; simp
      have hfind : (t'.id == i) = true := by simp [hid, hti]
      simp [saveTask, findById, List.find?, hhead, hfind]
    · have hneg : (a.id == i) = false := by simpa using ha
      have hrec : findById as i = some t := by
        simpa [findById, List.find?, hneg] using h
      have hhead : (a.id == t'.id) = false := by
        simp only [hid, hti]
        simpa using ha
      have := ih hrec
      simpa [saveTask, findById, List.find?, hhead, hneg] using this

theorem mem_saveTask {x t : Task} {store : List Task}
    (h : x ∈ saveTask store t) : x = t ∨ x ∈ store := by
  simp only [saveTask, List.mem_map] at h
  obtain ⟨y, hy, hxy⟩ := h
  by_cases hc : (y.id == t.id) = true
  · left; rw [← hxy]; simp [hc]
  · right
    have : x = y := by
      rw [← hxy]; simp [hc]
    rw [this]; exact hy

/-- C1: sharing a task twice with the same target leaves the target in
the shared-with set exactly once; the second call answers 200 and does
not change the store again. Hypotheses: the task resolves, the
requester is its owner, and the target does not already occur more
than once in the shared-with array (the share handler itself never
introduces duplicates). -/
theorem share_idempotent (store : List Task) (r tid uid : String) (t : Task)
    (hfind : findById store tid = some t) (hown : t.owner = r)
    (hdup : t.sharedWith.count uid ≤ 1) :
    (shareTask (shareTask store r tid uid true).store r tid uid true).status = 200 ∧
    (shareTask (shareTask store r tid uid true).store r tid uid true).store =
      (shareTask store r tid uid true).store ∧
    ∃ t2, findById (shareTask (shareTask store r tid uid true).store r tid uid true).store
            tid = some t2 ∧ t2.sharedWith.count uid = 1 := by
  have hro : (t.owner == r) = true := by simp [hown]
  by_cases hmem : uid ∈ t.sharedWith
  · have h1 : shareTask store r tid uid true = ⟨store, 200, some t, []⟩ := by
      simp [shareTask, hfind, hro, hmem]
    have hcount : t.sharedWith.count uid = 1 := by
      have hpos : 0 < t.sharedWith.count uid := List.count_pos_iff.mpr hmem
      omega
    refine ⟨?_, ?_, t, ?_, hcount⟩ <;> simp [h1, hfind]
  · have hcz : t.sharedWith.count uid = 0 := List.count_eq_zero.mpr hmem
    have h1 : shareTask store r tid uid true =
        ⟨saveTask store { t with sharedWith := t.sharedWith ++ [uid] }, 200,
          some { t with sharedWith := t.sharedWith ++ [uid] },
          [⟨notifyTopic uid, shareMessage t.title⟩]⟩ := by
      simp [shareTask, hfind, hro, hmem]
    have hfind2 : findById (saveTask store
        { t with sharedWith := t.sharedWith ++ [uid] }) tid =
        some { t with sharedWith := t.sharedWith ++ [uid] } :=
      findById_saveTask t { t with sharedWith := t.sharedWith ++ [uid] }
        rfl store hfind
    have hmem2 : uid ∈ ({ t with sharedWith := t.sharedWith ++ [uid] } :
        Task).sharedWith := by simp
    have hcount2 : ({ t with sharedWith := t.sharedWith ++ [uid] } :
        Task).sharedWith.count uid = 1 := by
      simp [List.count_append, hcz]
    have h2 : shareTask (saveTask store
        { t with sharedWith := t.sharedWith ++ [uid] }) r tid uid true =
        ⟨saveTask store { t with sharedWith := t.sharedWith ++ [uid] }, 200,
          some { t with sharedWith := t.sharedWith ++ [uid] }, []⟩ := by
      simp [shareTask, hfind2, hro, hmem2]
    refine ⟨?_, ?_, { t with sharedWith := t.sharedWith ++ [uid] }, ?_, hcount2⟩ <;>
      simp [h1, h2, hfind2]

/-- Witness for `share_idempotent` on the concrete one-task store. -/
theorem share_idempotent_witness :
    (shareTask (shareTask demoStore "u1" "t1" "u2" true).store "u1" "t1" "u2" true).status
      = 200 ∧
    (shareTask (shareTask demoStore "u1" "t1" "u2" true).store "u1" "t1" "u2" true).store =
      (shareTask demoStore "u1" "t1" "u2" true).store ∧
    ∃ t2, findById (shareTask (shareTask demoStore "u1" "t1" "u2" true).store
            "u1" "t1" "u2" true).store "t1" = some t2 ∧
      t2.sharedWith.count "u2" = 1 :=
  share_idempotent demoStore "u1" "t1" "u2" demoTask (by decide) (by decide) (by decide)

/-- C2: a requester who is not the owner of the resolved task gets 403
Forbidden and the store, the body and the emitted events are untouched. -/
theorem share_forbidden (store : List Task) (r tid uid : String) (e : Bool)
    (t : Task) (hfind : findById store tid = some t) (hown : t.owner ≠ r) :
    shareTask store r tid uid e = ⟨store, 403, none, []⟩ := by
  have hro : (t.owner == r) = false := by simpa using hown
  simp [shareTask, hfind, hro]

/-- Witness for `share_forbidden` on the concrete one-task store. -/
theorem share_forbidden_witness :
    shareTask demoStore "u9" "t1" "u2" true = ⟨demoStore, 403, none, []⟩ :=
  share_forbidden demoStore "u9" "t1" "u2" true demoTask (by decide) (by decide)

/-- C3 counterexample: on an identifier that does not resolve, the
share handler answers the generic 500 server error (the `null`
document makes `task.owner` throw, landing in the catch block), not a
404 not-found client error as the claim states. -/
theorem share_missing_counterexample :
    (shareTask [] "u1" "missing" "u2" true).status = 500 ∧
    (shareTask [] "u1" "missing" "u2" true).status ≠ 404 := by
  constructor
  · rfl
  · decide

/-- C3 amended: on an identifier that does not resolve, the share
operation fails with the generic 500 server error and leaves the
store unchanged, emitting nothing. -/
theorem share_missing_500 (store : List Task) (r tid uid : String) (e : Bool)
    (hfind : findById store tid = none) :
    shareTask store r tid uid e = ⟨store, 500, none, []⟩ := by
  simp [shareTask, hfind]

/-- Witness for `share_missing_500` on the concrete one-task store. -/
theorem share_missing_500_witness :
    shareTask demoStore "u1" "missing" "u2" true = ⟨demoStore, 500, none, []⟩ :=
  share_missing_500 demoStore "u1" "missing" "u2" true (by decide)

/-- The demo task with the target user already in its shared-with set. -/
def demoTaskShared : Task := { demoTask with sharedWith := ["u2"] }

/-- A one-task store whose task is already shared with the target. -/
def demoStoreShared : List Task := [demoTaskShared]

/-- C4: when the owner shares a resolved task with a target not yet in
the shared-with set, exactly one notification event is emitted, it is
addressed to the target topic, and its message contains the task
title; when the target is already in the shared-with set, no event is
emitted. -/
theorem share_notify_events (store : List Task) (r tid uid : String) (t : Task)
    (hfind : findById store tid = some t) (hown : t.owner = r) :
    (uid ∉ t.sharedWith →
      (shareTask store r tid uid true).events =
        [⟨notifyTopic uid, shareMessage t.title⟩] ∧
      ∃ pre post, shareMessage t.title = pre ++ t.title ++ post) ∧
    (uid ∈ t.sharedWith → (shareTask store r tid uid true).events = []) := by
  have hro : (t.owner == r) = true := by simp [hown]
  constructor
  · intro hmem
    exact ⟨by simp [shareTask, hfind, hro, hmem],
           "A task titled \"", "\" was shared with you.", rfl⟩
  · intro hmem
    simp [shareTask, hfind, hro, hmem]

/-- Witness for `share_notify_events` on a fresh share and on an
already-shared task. -/
theorem share_notify_events_witness :
    (shareTask demoStore "u1" "t1" "u2" true).events =
      [⟨notifyTopic "u2", shareMessage demoTask.title⟩] ∧
    (shareTask demoStoreShared "u1" "t1" "u2" true).events = [] :=
  ⟨((share_notify_events demoStore "u1" "t1" "u2" demoTask
      (by decide) (by decide)).1 (by decide)).1,
   (share_notify_events demoStoreShared "u1" "t1" "u2" demoTaskShared
      (by decide) (by decide)).2 (by decide)⟩

/-- C5: the single event of a successful share travels on the topic
named after the target user. A client holding exactly one listener for
that topic at emit time fires once; a client with no listener for the
topic fires zero times, and registering a listener via
`listenForNotifications` is what makes it fire once. Topics of
distinct users are distinct event names, so a client subscribed only
to another user topic receives nothing; no event is retained for later
subscribers (the model delivers solely from the events of the call). -/
theorem share_topic_delivery (store : List Task) (r tid uid : String) (t : Task)
    (hfind : findById store tid = some t) (hown : t.owner = r)
    (hnew : uid ∉ t.sharedWith) :
    (∃ m, (shareTask store r tid uid true).events = [⟨notifyTopic uid, m⟩]) ∧
    (∀ c : Client, c.topics.count (notifyTopic uid) = 1 →
      deliveredTo c (shareTask store r tid uid true).events = 1) ∧
    (∀ c : Client, notifyTopic uid ∉ c.topics →
      deliveredTo c (shareTask store r tid uid true).events = 0) ∧
    (∀ c : Client, notifyTopic uid ∉ c.topics →
      deliveredTo (subscribeNotifications c uid)
        (shareTask store r tid uid true).events = 1) ∧
    (∀ v : String, v ≠ uid → notifyTopic v ≠ notifyTopic uid) := by
  have hro : (t.owner == r) = true := by simp [hown]
  have hev : (shareTask store r tid uid true).events =
      [⟨notifyTopic uid, shareMessage t.title⟩] := by
    simp [shareTask, hfind, hro, hnew]
  refine ⟨⟨_, hev⟩, ?_, ?_, ?_, ?_⟩
  · intro c hc
    simp [deliveredTo, receivedCount, hev, hc]
  · intro c hc
    simp [deliveredTo, receivedCount, hev, List.count_eq_zero.mpr hc]
  · intro c hc
    simp [deliveredTo, receivedCount, hev, subscribeNotifications,
      List.count_append, List.count_eq_zero.mpr hc]
  · intro v hv hcontra
    apply hv
    have hd : (notifyTopic v).data = (notifyTopic uid).data :=
      congrArg String.data hcontra
    simp only [notifyTopic, String.data_append] at hd
    exact String.ext (List.append_cancel_left hd)

/-- Witness for `share_topic_delivery`: the subscribed client fires
once, the unsubscribed client fires zero times. -/
theorem share_topic_delivery_witness :
    deliveredTo ⟨[notifyTopic "u2"]⟩ (shareTask demoStore "u1" "t1" "u2" true).events
      = 1 ∧
    deliveredTo ⟨[notifyTopic "u7"]⟩ (shareTask demoStore "u1" "t1" "u2" true).events
      = 0 :=
  ⟨(share_topic_delivery demoStore "u1" "t1" "u2" demoTask
      (by decide) (by decide) (by decide)).2.1 ⟨[notifyTopic "u2"]⟩ (by decide),
   (share_topic_delivery demoStore "u1" "t1" "u2" demoTask
      (by decide) (by decide) (by decide)).2.2.1 ⟨[notifyTopic "u7"]⟩ (by decide)⟩

/-- C6: when the save succeeds but the emit throws, the request is
answered with the generic 500 error, yet the target user stays in the
shared-with set of the stored task: the mutation is not rolled back. -/
theorem share_no_rollback (store : List Task) (r tid uid : String) (t : Task)
    (hfind : findById store tid = some t) (hown : t.owner = r)
    (hnew : uid ∉ t.sharedWith) :
    (shareTask store r tid uid false).status = 500 ∧
    ∃ t2, findById (shareTask store r tid uid false).store tid = some t2 ∧
      uid ∈ t2.sharedWith := by
  have hro : (t.owner == r) = true := by simp [hown]
  have h1 : shareTask store r tid uid false =
      ⟨saveTask store { t with sharedWith := t.sharedWith ++ [uid] }, 500,
        none, []⟩ := by
    simp [shareTask, hfind, hro, hnew]
  refine ⟨by simp [h1], { t with sharedWith := t.sharedWith ++ [uid] }, ?_, by simp⟩
  simpa [h1] using
    findById_saveTask t { t with sharedWith := t.sharedWith ++ [uid] }
      rfl store hfind

/-- Witness for `share_no_rollback` on the concrete one-task store. -/
theorem share_no_rollback_witness :
    (shareTask demoStore "u1" "t1" "u2" false).status = 500 ∧
    ∃ t2, findById (shareTask demoStore "u1" "t1" "u2" false).store "t1" = some t2 ∧
      "u2" ∈ t2.sharedWith :=
  share_no_rollback demoStore "u1" "t1" "u2" demoTask
    (by decide) (by decide) (by decide)

theorem mem_keyCounts {α κ : Type} [DecidableEq κ] (key : α → κ)
    (l : List α) (ks : List κ) (hks : ∀ k, k ∈ ks ↔ ∃ a ∈ l, key a = k)
    (d : κ) (n : Nat) :
    ((d, n) ∈ ks.map (fun k => (k, l.countP (fun a => key a == k)))) ↔
      ((∃ a ∈ l, key a = d) ∧ n = l.countP (fun a => key a == d)) := by
  constructor
  · intro h
    simp only [List.mem_map] at h
    obtain ⟨k, hk, heq⟩ := h
    rw [Prod.mk.injEq] at heq
    obtain ⟨rfl, rfl⟩ := heq
    exact ⟨(hks k).mp hk, rfl⟩
  · rintro ⟨hex, rfl⟩
    exact List.mem_map.mpr ⟨d, (hks d).mpr hex, rfl⟩

/-- C7: the overview aggregation, scoped to the tasks owned by the
requesting user, yields one entry per status value carried by at least
one of those tasks — the count of the tasks in that status — and no
entry for any other status value. -/
theorem overview_correct (store : List Task) (uid : String) :
    ((overview store uid).map Prod.fst).Nodup ∧
    ∀ s n, (s, n) ∈ overview store uid ↔
      (0 < n ∧ n = store.countP (fun t => t.status == s && t.owner == uid)) := by
  have hcnt : ∀ s : String,
      (store.filter (fun t => t.owner == uid)).countP (fun t => t.status == s) =
      store.countP (fun t => t.status == s && t.owner == uid) := by
    intro s
    exact List.countP_filter _ _ _
  constructor
  · have hfst : (overview store uid).map Prod.fst =
        ((store.filter (fun t => t.owner == uid)).map Task.status).dedup := by
      simp [overview, List.map_map, Function.comp_def]
    rw [hfst]
    exact List.nodup_dedup _
  · intro s n
    have hmem := mem_keyCounts Task.status
      (store.filter (fun t => t.owner == uid))
      ((store.filter (fun t => t.owner == uid)).map Task.status).dedup
      (by intro k; simp [List.mem_dedup]) s n
    have hform : overview store uid =
        ((store.filter (fun t => t.owner == uid)).map Task.status).dedup.map
          (fun k => (k, (store.filter (fun t => t.owner == uid)).countP
            (fun t => t.status == k))) := by
      simp [overview]
    rw [hform, hmem, hcnt s]
    constructor
    · rintro ⟨⟨t, ht, hts⟩, rfl⟩
      refine ⟨?_, rfl⟩
      rw [← hcnt s]
      exact List.countP_pos_iff.mpr ⟨t, ht, by simp [hts]⟩
    · rintro ⟨hpos, rfl⟩
      refine ⟨?_, rfl⟩
      rw [← hcnt s] at hpos
      obtain ⟨t, ht, hts⟩ := List.countP_pos_iff.mp hpos
      exact ⟨t, ht, by simpa using hts⟩

/-- Witness for `overview_correct` membership on a concrete store. -/
theorem overview_correct_witness :
    ("Pending", 1) ∈ overview demoStore "u1" :=
  ((overview_correct demoStore "u1").2 "Pending" 1).mpr (by decide)

/-- C8: the trends aggregation, scoped to the tasks owned by the
requesting user, keeps exactly the tasks created in the trailing
7-day window ending at query time (the store only holds creation
times not later than the query time), groups them by the calendar day
of creation with a per-day count, and sorts the day groups ascending
with no duplicate day. -/
theorem trends_correct (store : List Task) (uid : String) (now : Nat)
    (hpast : ∀ t ∈ store, t.createdAt ≤ now) :
    ((trends store uid now).map Prod.fst).Sorted (· ≤ ·) ∧
    ((trends store uid now).map Prod.fst).Nodup ∧
    ∀ d n, (d, n) ∈ trends store uid now ↔
      ((∃ t ∈ store, t.owner = uid ∧ now - 7 * msPerDay ≤ t.createdAt ∧
          t.createdAt ≤ now ∧ dayKey t.createdAt = d) ∧
        n = store.countP (fun t => (dayKey t.createdAt == d) &&
          (t.owner == uid && decide (now - 7 * msPerDay ≤ t.createdAt)))) := by
  have hcnt : ∀ d : Nat,
      (store.filter (fun t => t.owner == uid &&
        decide (now - 7 * msPerDay ≤ t.createdAt))).countP
          (fun t => dayKey t.createdAt == d) =
      store.countP (fun t => (dayKey t.createdAt == d) &&
        (t.owner == uid && decide (now - 7 * msPerDay ≤ t.createdAt))) := by
    intro d
    exact List.countP_filter _ _ _
  have hfst : (trends store uid now).map Prod.fst =
      ((store.filter (fun t => t.owner == uid &&
        decide (now - 7 * msPerDay ≤ t.createdAt))).map
          (fun t => dayKey t.createdAt)).dedup.mergeSort := by
    simp [trends, List.map_map, Function.comp_def]
  refine ⟨?_, ?_, ?_⟩
  · rw [hfst]
    exact List.sorted_mergeSort' _
  · rw [hfst]
    exact (List.mergeSort_perm _ _).symm.nodup (List.nodup_dedup _)
  · intro d n
    have hmem := mem_keyCounts (fun t => dayKey t.createdAt)
      (store.filter (fun t => t.owner == uid &&
        decide (now - 7 * msPerDay ≤ t.createdAt)))
      ((store.filter (fun t => t.owner == uid &&
        decide (now - 7 * msPerDay ≤ t.createdAt))).map
          (fun t => dayKey t.createdAt)).dedup.mergeSort
      (by
        intro k
        rw [(List.mergeSort_perm _ _).mem_iff]
        simp [List.mem_dedup])
      d n
    have hform : trends store uid now =
        ((store.filter (fun t => t.owner == uid &&
          decide (now - 7 * msPerDay ≤ t.createdAt))).map
            (fun t => dayKey t.createdAt)).dedup.mergeSort.map
          (fun k => (k, (store.filter (fun t => t.owner == uid &&
            decide (now - 7 * msPerDay ≤ t.createdAt))).countP
              (fun t => dayKey t.createdAt == k))) := by
      simp [trends]
    rw [hform, hmem, hcnt d]
    constructor
    · rintro ⟨⟨t, ht, htd⟩, rfl⟩
      rw [List.mem_filter] at ht
      obtain ⟨hts, hcond⟩ := ht
      simp only [Bool.and_eq_true, beq_iff_eq, decide_eq_true_eq] at hcond
      exact ⟨⟨t, hts, hcond.1, hcond.2, hpast t hts, htd⟩, rfl⟩
    · rintro ⟨⟨t, hts, howner, hwin, _, htd⟩, rfl⟩
      refine ⟨⟨t, ?_, htd⟩, rfl⟩
      rw [List.mem_filter]
      exact ⟨hts, by simp [howner, hwin]⟩

/-- Witness for `trends_correct` on a concrete store at a concrete
query time. -/
theorem trends_correct_witness :
    ((trends demoStore "u1" (2 * 86400000)).map Prod.fst).Sorted (· ≤ ·) ∧
    ((trends demoStore "u1" (2 * 86400000)).map Prod.fst).Nodup ∧
    ∀ d n, (d, n) ∈ trends demoStore "u1" (2 * 86400000) ↔
      ((∃ t ∈ demoStore, t.owner = "u1" ∧
          2 * 86400000 - 7 * msPerDay ≤ t.createdAt ∧
          t.createdAt ≤ 2 * 86400000 ∧ dayKey t.createdAt = d) ∧
        n = demoStore.countP (fun t => (dayKey t.createdAt == d) &&
          (t.owner == "u1" &&
            decide (2 * 86400000 - 7 * msPerDay ≤ t.createdAt)))) :=
  trends_correct demoStore "u1" (2 * 86400000) (by decide)

theorem schemaStatus_valid {status? : Option String} {s : String}
    (h : schemaStatus status? = some s) : statusEnum.contains s = true := by
  cases status? with
  | none =>
    simp only [schemaStatus, Option.some.injEq] at h
    rw [← h]
    decide
  | some s0 =>
    simp only [schemaStatus] at h
    by_cases hc : statusEnum.contains s0 = true
    · rw [if_pos hc] at h
      injection h with h2
      rw [← h2]
      exact hc
    · rw [if_neg hc] at h
      cases h

theorem shareTask_store_cases (store : List Task) (r tid target : String)
    (e : Bool) :
    (shareTask store r tid target e).store = store ∨
    ∃ t, findById store tid = some t ∧
      (shareTask store r tid target e).store =
        saveTask store { t with sharedWith := t.sharedWith ++ [target] } := by
  unfold shareTask
  cases hf : findById store tid with
  | none => left; rfl
  | some t =>
    by_cases ho : (t.owner == r) = true
    · by_cases hc : target ∈ t.sharedWith
      · left
        simp [ho, hc]
      · right
        refine ⟨t, rfl, ?_⟩
        cases e <;> simp [ho, hc]
    · left
      simp [ho]

/-- C9: every stored task keeps exactly one owner, fixed at creation,
and a status drawn from the fixed enumeration. Creation stores the
requesting user as the single owner with a schema-validated status
that defaults to Pending when unspecified; update rewrites a document
without touching its owner; share touches neither owner nor status of
any document; delete only removes documents. -/
theorem task_invariants (store : List Task) (hinv : storeInv store)
    (r nid title descr : String) (status? : Option String)
    (dd : Option Nat) (now : Nat) (tid target st : String) (emitOk : Bool) :
    (storeInv (createTask store r nid title descr status? dd now).1 ∧
      ∀ t ∈ (createTask store r nid title descr status? dd now).1,
        t ∈ store ∨ (t.owner = r ∧ statusOk t = true)) ∧
    ((createTask store r nid title descr none dd now).2 = true ∧
      ∀ t ∈ (createTask store r nid title descr none dd now).1,
        t ∈ store ∨ t.status = "Pending") ∧
    (storeInv (updateTask store tid title descr st dd).1 ∧
      ∀ t2 ∈ (updateTask store tid title descr st dd).1,
        ∃ t ∈ store, t2.id = t.id ∧ t2.owner = t.owner) ∧
    (storeInv (shareTask store r tid target emitOk).store ∧
      ∀ t2 ∈ (shareTask store r tid target emitOk).store,
        ∃ t ∈ store, t2.id = t.id ∧ t2.owner = t.owner ∧ t2.status = t.status) ∧
    (∀ t ∈ deleteTask store tid, t ∈ store) := by
  refine ⟨?_, ?_, ?_, ?_, ?_⟩
  · cases hs : schemaStatus status? with
    | none =>
      constructor
      · intro x hx
        simp only [createTask, hs] at hx
        exact hinv x hx
      · intro x hx
        simp only [createTask, hs] at hx
        exact Or.inl hx
    | some s =>
      constructor
      · intro x hx
        simp only [createTask, hs, List.mem_append, List.mem_singleton] at hx
        rcases hx with hx | rfl
        · exact hinv x hx
        · exact schemaStatus_valid hs
      · intro x hx
        simp only [createTask, hs, List.mem_append, List.mem_singleton] at hx
        rcases hx with hx | rfl
        · exact Or.inl hx
        · exact Or.inr ⟨rfl, schemaStatus_valid hs⟩
  · constructor
    · rfl
    · intro x hx
      simp only [createTask, schemaStatus, List.mem_append,
        List.mem_singleton] at hx
      rcases hx with hx | rfl
      · exact Or.inl hx
      · exact Or.inr rfl
  · cases hf : findById store tid with
    | none =>
      constructor
      · intro x hx
        simp only [updateTask, hf] at hx
        exact hinv x hx
      · intro x hx
        simp only [updateTask, hf] at hx
        exact ⟨x, hx, rfl, rfl⟩
    | some t0 =>
      by_cases hc : statusEnum.contains st = true
      · have hform : (updateTask store tid title descr st dd).1 =
            saveTask store
              { t0 with title := title, description := descr, status := st, dueDate := dd } := by
          simp only [updateTask, hf]
          rw [if_pos hc]
        rw [hform]
        constructor
        · intro x hx
          rcases mem_saveTask hx with rfl | hxs
          · exact hc
          · exact hinv x hxs
        · intro x hx
          rcases mem_saveTask hx with rfl | hxs
          · exact ⟨t0, findById_mem hf, rfl, rfl⟩
          · exact ⟨x, hxs, rfl, rfl⟩
      · have hform : (updateTask store tid title descr st dd).1 = store := by
          simp only [updateTask, hf]
          rw [if_neg hc]
        rw [hform]
        exact ⟨fun x hx => hinv x hx, fun x hx => ⟨x, hx, rfl, rfl⟩⟩
  · rcases shareTask_store_cases store r tid target emitOk with h | ⟨t0, hf, h⟩
    · rw [h]
      exact ⟨fun x hx => hinv x hx, fun x hx => ⟨x, hx, rfl, rfl, rfl⟩⟩
    · rw [h]
      constructor
      · intro x hx
        rcases mem_saveTask hx with rfl | hxs
        · exact hinv t0 (findById_mem hf)
        · exact hinv x hxs
      · intro x hx
        rcases mem_saveTask hx with rfl | hxs
        · exact ⟨t0, findById_mem hf, rfl, rfl, rfl⟩
        · exact ⟨x, hxs, rfl, rfl, rfl⟩
  · intro x hx
    exact (List.mem_filter.mp hx).1

/-- Witness for `task_invariants` on the concrete one-task store. -/
theorem task_invariants_witness :
    (storeInv (createTask demoStore "u1" "t9" "New" "" none none 0).1 ∧
      ∀ t ∈ (createTask demoStore "u1" "t9" "New" "" none none 0).1,
        t ∈ demoStore ∨ (t.owner = "u1" ∧ statusOk t = true)) ∧
    ((createTask demoStore "u1" "t9" "New" "" none none 0).2 = true ∧
      ∀ t ∈ (createTask demoStore "u1" "t9" "New" "" none none 0).1,
        t ∈ demoStore ∨ t.status = "Pending") ∧
    (storeInv (updateTask demoStore "t1" "New" "" "Completed" none).1 ∧
      ∀ t2 ∈ (updateTask demoStore "t1" "New" "" "Completed" none).1,
        ∃ t ∈ demoStore, t2.id = t.id ∧ t2.owner = t.owner) ∧
    (storeInv (shareTask demoStore "u1" "t1" "u2" true).store ∧
      ∀ t2 ∈ (shareTask demoStore "u1" "t1" "u2" true).store,
        ∃ t ∈ demoStore, t2.id = t.id ∧ t2.owner = t.owner ∧
          t2.status = t.status) ∧
    (∀ t ∈ deleteTask demoStore "t1", t ∈ demoStore) :=
  task_invariants demoStore
    (by
      intro t ht
      simp only [demoStore, List.mem_singleton] at ht
      subst ht
      decide)
    "u1" "t9" "New" "" none none 0 "t1" "u2" "Completed" true

/-- C10: a protected request reaches its handler exactly when the
authorization header yields a bearer token, the token verifies, and
the decoded identifier resolves in the user store; the attached user
is then a record of the user store. In every other case — no token,
failed verification, or an unresolved identifier — the middleware
answers 401 and the handler never runs. -/
theorem auth_guard (verify : String → Option String) (users : List User)
    (header : Option String) :
    (∀ u, authMiddleware verify users header = .proceed u ↔
      ∃ tok uid, bearerToken header = some tok ∧ verify tok = some uid ∧
        findUser users uid = some u) ∧
    (∀ u, authMiddleware verify users header = .proceed u → u ∈ users) ∧
    (bearerToken header = none →
      authMiddleware verify users header = .unauthorized) ∧
    (∀ tok, bearerToken header = some tok → verify tok = none →
      authMiddleware verify users header = .unauthorized) ∧
    (∀ tok uid, bearerToken header = some tok → verify tok = some uid →
      findUser users uid = none →
      authMiddleware verify users header = .unauthorized) := by
  cases hb : bearerToken header with
  | none =>
    refine ⟨?_, ?_, ?_, ?_, ?_⟩
    · intro u
      simp [authMiddleware, hb]
    · intro u h
      simp [authMiddleware, hb] at h
    · intro _
      simp [authMiddleware, hb]
    · intro tok htok
      cases htok
    · intro tok uid htok
      cases htok
  | some tok0 =>
    cases hv : verify tok0 with
    | none =>
      refine ⟨?_, ?_, ?_, ?_, ?_⟩
      · intro u
        constructor
        · intro h
          simp [authMiddleware, hb, hv] at h
        · rintro ⟨tok, uid, htok, hvt, _⟩
          cases htok
          rw [hv] at hvt
          cases hvt
      · intro u h
        simp [authMiddleware, hb, hv] at h
      · intro hnone
        cases hnone
      · intro tok htok _
        simp [authMiddleware, hb, hv]
      · intro tok uid htok hvt
        cases htok
        rw [hv] at hvt
        cases hvt
    | some uid0 =>
      cases hu : findUser users uid0 with
      | none =>
        refine ⟨?_, ?_, ?_, ?_, ?_⟩
        · intro u
          constructor
          · intro h
            simp [authMiddleware, hb, hv, hu] at h
          · rintro ⟨tok, uid, htok, hvt, hfu⟩
            cases htok
            rw [hv] at hvt
            cases hvt
            rw [hu] at hfu
            cases hfu
        · intro u h
          simp [authMiddleware, hb, hv, hu] at h
        · intro hnone
          cases hnone
        · intro tok htok hvt
          cases htok
          rw [hv] at hvt
          cases hvt
        · intro tok uid htok hvt _
          simp [authMiddleware, hb, hv, hu]
      | some u0 =>
        refine ⟨?_, ?_, ?_, ?_, ?_⟩
        · intro u
          constructor
          · intro h
            simp only [authMiddleware, hb, hv, hu] at h
            cases h
            exact ⟨tok0, uid0, rfl, hv, hu⟩
          · rintro ⟨tok, uid, htok, hvt, hfu⟩
            cases htok
            rw [hv] at hvt
            cases hvt
            rw [hu] at hfu
            cases hfu
            simp [authMiddleware, hb, hv, hu]
        · intro u h
          simp only [authMiddleware, hb, hv, hu] at h
          cases h
          exact List.mem_of_find?_eq_some hu
        · intro hnone
          cases hnone
        · intro tok htok hvt
          cases htok
          rw [hv] at hvt
          cases hvt
        · intro tok uid htok hvt hfu
          cases htok
          rw [hv] at hvt
          cases hvt
          rw [hu] at hfu
          cases hfu

/-- A concrete user directory. -/
def demoUsers : List User := [⟨"u1", "alice", "hash1"⟩]

/-- A concrete stand-in for `jwt.verify` under a fixed secret: one
valid token decoding to the identifier of the demo user. -/
def demoVerify : String → Option String :=
  fun tok => if tok = "tok1" then some "u1" else none

/-- Witness for `auth_guard`: the valid bearer header reaches the
handler with the resolved demo user attached. -/
theorem auth_guard_witness :
    authMiddleware demoVerify demoUsers (some "Bearer tok1") =
      .proceed ⟨"u1", "alice", "hash1"⟩ :=
  ((auth_guard demoVerify demoUsers (some "Bearer tok1")).1
      ⟨"u1", "alice", "hash1"⟩).mpr
    ⟨"tok1", "u1", by decide, by decide, by decide⟩

end TaskMgmt
